import Mathlib

/-!
Verification of the merge layers of `lasagne/layers/merge.py`:
`ConcatLayer` (concatenation of upstream tensors along an axis) and
`ElemwiseSumLayer` (weighted elementwise sum of same-shaped upstream
tensors).

Modelling conventions:
* a tensor shape is a `List Nat` (a Python tuple of dimension sizes);
* tensors fed to `ElemwiseSumLayer` are modelled by the flat list of
  their entries (`List Int`): elementwise operations on same-shaped
  tensors act independently on each position, so a flat view is
  faithful;
* tensors fed to `ConcatLayer` are modelled by the nested inductive
  `Tensor`, since concatenation is sensitive to the axis structure;
* Python code that can raise becomes `Option`/`Except`: `none`/`.error`
  is a raised exception (or, for `get_output_for`, Python's `None`
  result), and the `Except` message mirrors the Python message.
-/

namespace Lasagne

/-- Embedding of `ConcatLayer.get_output_shape_for(self, input_shapes)` from
`lasagne/layers/merge.py`:
`sizes = [input_shape[self.axis] for input_shape in input_shapes]`
(raises `IndexError`, i.e. `none`, when `axis` is out of range for some
shape), `output_shape = list(input_shapes[0])` (raises when the list is
empty), `output_shape[self.axis] = sum(sizes)`, `return tuple(output_shape)`. -/
def concat_get_output_shape_for (axis : Nat) (input_shapes : List (List Nat)) :
    Option (List Nat) := do
  let sizes ← input_shapes.mapM (fun input_shape => input_shape.get? axis)
  let first ← input_shapes.head?
  pure (first.set axis sizes.sum)

/-- A multi-dimensional tensor: either a scalar entry or a list of
sub-tensors along the leading axis. -/
inductive Tensor where
  | scalar : Int → Tensor
  | dim : List Tensor → Tensor

/-- The list of sub-tensors along the leading axis; `none` on a scalar
(rank 0), which cannot be concatenated. -/
def subTensors : Tensor → Option (List Tensor)
  | Tensor.scalar _ => none
  | Tensor.dim ts => some ts

/-- Modelled from the spec: `utils.concatenate(inputs, axis)` is not under
`src/` (only its caller `ConcatLayer.get_output_for` is); the spec says it
"returns their concatenation along `axis`". Axis `0` joins the input
tensors' slices in input-list order; axis `k+1` concatenates
corresponding slices at axis `k` (requiring the inputs to agree along
the leading axis and to be non-empty, as the backend does). -/
def utils_concatenate : Nat → List Tensor → Option Tensor
  | 0, inputs =>
    (inputs.mapM subTensors).map (fun rows => Tensor.dim rows.flatten)
  | axis + 1, inputs =>
    match inputs.mapM subTensors with
    | none => none
    | some rows =>
      match rows.head? with
      | none => none
      | some first =>
        if rows.all (fun r => r.length = first.length) then
          ((List.range first.length).mapM (fun j =>
            utils_concatenate axis (rows.map (fun r => r.getD j (Tensor.dim []))))).map
            Tensor.dim
        else none

/-- Embedding of `ConcatLayer.get_output_for(self, inputs)` from
`lasagne/layers/merge.py`: `return utils.concatenate(inputs, axis=self.axis)`. -/
def concat_get_output_for (axis : Nat) (inputs : List Tensor) : Option Tensor :=
  utils_concatenate axis inputs

/-- The `coeffs` argument of `ElemwiseSumLayer.__init__`: the Python code
distinguishes a list from a scalar by `isinstance(coeffs, list)`. -/
inductive Coeffs where
  | scalar : Int → Coeffs
  | list : List Int → Coeffs

/-- The Python error message
`"Mismatch: got %d coeffs for %d input_layers" % (len(coeffs), len(input_layers))`. -/
def coeffsMismatchMsg (ncoeffs ninputs : Nat) : String :=
  "Mismatch: got " ++ toString ncoeffs ++ " coeffs for " ++ toString ninputs ++
    " input_layers"

/-- Embedding of `ElemwiseSumLayer.__init__(self, input_layers, coeffs=1)` from
`lasagne/layers/merge.py`, restricted to the coefficient handling (the
upstream layers enter only through their count `ninputs`): a list of the
wrong length raises `ValueError`, a scalar is broadcast by
`coeffs = [coeffs] * len(input_layers)`; the resolved `self.coeffs` is
returned. -/
def elemwiseSum_construct (ninputs : Nat) (coeffs : Coeffs) : Except String (List Int) :=
  match coeffs with
  | Coeffs.list cs =>
    if cs.length ≠ ninputs then
      Except.error (coeffsMismatchMsg cs.length ninputs)
    else
      Except.ok cs
  | Coeffs.scalar c => Except.ok (List.replicate ninputs c)

/-- The Python error message of `ElemwiseSumLayer.get_output_shape_for`. -/
def shapesMismatchMsg : String := "Mismatch: not all input shapes are the same"

/-- Embedding of `ElemwiseSumLayer.get_output_shape_for(self, input_shapes)` from
`lasagne/layers/merge.py`:
`if any(shape != input_shapes[0] for shape in input_shapes): raise ValueError(...)`;
`return input_shapes[0]`. On an empty list the lazy `any` generator yields
nothing, and `input_shapes[0]` then raises `IndexError`. -/
def elemwiseSum_get_output_shape_for (input_shapes : List (List Nat)) :
    Except String (List Nat) :=
  match input_shapes with
  | [] => Except.error "IndexError: list index out of range"
  | first :: rest =>
    if (first :: rest).any (fun shape => shape ≠ first) then
      Except.error shapesMismatchMsg
    else
      Except.ok first

/-- Python `input * coeff` on an elementwise-viewed tensor. -/
def scalarMul (c : Int) (t : List Int) : List Int := t.map (fun x => c * x)

/-- Python `output + input` on two elementwise-viewed tensors of the same shape. -/
def tensorAdd (a b : List Int) : List Int := List.zipWith (fun x y => x + y) a b

/-- The loop body of `ElemwiseSumLayer.get_output_for`:
`for coeff, input in zip(self.coeffs, inputs): if coeff != 1: input *= coeff;
if output is not None: output += input else: output = input`. -/
def elemwiseSum_loop : List (Int × List Int) → Option (List Int) → Option (List Int)
  | [], output => output
  | (coeff, t) :: rest, output =>
    let t1 := if coeff ≠ 1 then scalarMul coeff t else t
    match output with
    | some o => elemwiseSum_loop rest (some (tensorAdd o t1))
    | none => elemwiseSum_loop rest (some t1)

/-- Embedding of `ElemwiseSumLayer.get_output_for(self, inputs)` from
`lasagne/layers/merge.py`: `output = None`, the loop above, `return output`
(`none` models Python's `None` result on an empty zip). -/
def elemwiseSum_get_output_for (coeffs : List Int) (inputs : List (List Int)) :
    Option (List Int) :=
  elemwiseSum_loop (coeffs.zip inputs) none

/-- The same loop with the `coeff != 1` skip removed: the multiplication is
performed unconditionally. Used to show the skip is unobservable. -/
def elemwiseSum_loop_noskip : List (Int × List Int) → Option (List Int) → Option (List Int)
  | [], output => output
  | (coeff, t) :: rest, output =>
    let t1 := scalarMul coeff t
    match output with
    | some o => elemwiseSum_loop_noskip rest (some (tensorAdd o t1))
    | none => elemwiseSum_loop_noskip rest (some t1)

/-! ### A heap model for the side-effect claims

Tensors live in an append-only store of cells addressed by `Nat`; the
layer methods receive addresses. Theano tensor variables are immutable
symbolic expressions: Python's `input *= coeff` and `output += input`
fall back to `__mul__`/`__add__`, which allocate new expressions and
rebind the local name, never mutating an existing cell. The store model
makes this explicit so that frame properties can be stated. -/

/-- A heap of tensor cells; allocation appends, nothing is ever mutated. -/
structure Store (α : Type) where
  cells : List α

/-- Read the cell at address `a` (`d` for a dangling address). -/
def Store.read {α : Type} (s : Store α) (a : Nat) (d : α) : α := s.cells.getD a d

/-- Allocate a new cell holding `v`; returns the new store and the address. -/
def Store.alloc {α : Type} (s : Store α) (v : α) : Store α × Nat :=
  (Store.mk (s.cells ++ [v]), s.cells.length)

/-- One iteration of the `ElemwiseSumLayer.get_output_for` loop in the
store model: `if coeff != 1: input *= coeff` allocates the scaled tensor
(theano `*` builds a new expression), then `output += input` /
`output = input` allocates the sum or rebinds. -/
def elemwiseSum_step (s : Store (List Int)) (out : Option Nat) (coeff : Int)
    (addr : Nat) : Store (List Int) × Option Nat :=
  let p1 := if coeff ≠ 1 then s.alloc (scalarMul coeff (s.read addr [])) else (s, addr)
  match out with
  | some o =>
    let p2 := p1.1.alloc (tensorAdd (p1.1.read o []) (p1.1.read p1.2 []))
    (p2.1, some p2.2)
  | none => (p1.1, some p1.2)

/-- The full loop of `ElemwiseSumLayer.get_output_for` in the store model. -/
def elemwiseSum_run : List (Int × Nat) → Store (List Int) → Option Nat →
    Store (List Int) × Option Nat
  | [], s, out => (s, out)
  | (c, a) :: rest, s, out =>
    let p := elemwiseSum_step s out c a
    elemwiseSum_run rest p.1 p.2

/-- Embedding of `ElemwiseSumLayer.get_output_for` in the store model: the inputs are
addresses of upstream tensors, the result is the address of the output
(or `none`, Python's `None`, when the list is empty). -/
def elemwiseSum_get_output_for_heap (coeffs : List Int) (addrs : List Nat)
    (s : Store (List Int)) : Store (List Int) × Option Nat :=
  elemwiseSum_run (coeffs.zip addrs) s none

/-- Embedding of `ConcatLayer.get_output_for` in the store model: reads the upstream
tensors and allocates the concatenation (theano's concatenation builds a
new expression). -/
def concat_get_output_for_heap (axis : Nat) (addrs : List Nat) (s : Store Tensor) :
    Store Tensor × Option Nat :=
  match concat_get_output_for axis (addrs.map (fun a => s.read a (Tensor.dim []))) with
  | some t =>
    let p := s.alloc t
    (p.1, some p.2)
  | none => (s, none)

/-! ### Helper lemmas -/

/-- When `axis` is in range for every shape, the Python list comprehension
`[input_shape[axis] for input_shape in input_shapes]` succeeds and yields
the per-shape axis sizes. -/
theorem mapM_get?_eq (axis : Nat) :
    ∀ shapes : List (List Nat), (∀ s ∈ shapes, axis < s.length) →
      shapes.mapM (fun s => s.get? axis) =
        some (shapes.map (fun s => s.getD axis 0)) := by
  intro shapes
  induction shapes with
  | nil => intro _; rfl
  | cons s rest ih =>
    intro h
    have hs : axis < s.length := h s (List.mem_cons_self s rest)
    have hrest := ih (fun t ht => h t (List.mem_cons_of_mem s ht))
    have hget : s.get? axis = some (s.getD axis 0) := by
      rw [List.getD_eq_get?]
      cases hcase : s.get? axis with
      | none =>
        rw [List.get?_eq_none] at hcase
        omega
      | some v => rfl
    rw [List.mapM_cons, hget, hrest]
    rfl

/-- Explicit form of `concat_get_output_shape_for` on a non-empty list of
shapes for which `axis` is in range. -/
theorem concat_shape_eq (axis : Nat) (first : List Nat) (rest : List (List Nat))
    (h : ∀ s ∈ first :: rest, axis < s.length) :
    concat_get_output_shape_for axis (first :: rest) =
      some (first.set axis (((first :: rest).map (fun s => s.getD axis 0)).sum)) := by
  unfold concat_get_output_shape_for
  rw [mapM_get?_eq axis (first :: rest) h]
  rfl

/-- Multiplying by the coefficient `1` is the identity, which is why the
Python `if coeff != 1` skip is unobservable. -/
theorem scalarMul_one (t : List Int) : scalarMul 1 t = t := by
  simp [scalarMul]

theorem length_scalarMul (c : Int) (t : List Int) :
    (scalarMul c t).length = t.length := by
  simp [scalarMul]

theorem length_tensorAdd (a b : List Int) :
    (tensorAdd a b).length = min a.length b.length := by
  simp [tensorAdd]

theorem getD_scalarMul (c : Int) :
    ∀ (t : List Int) (j : Nat), j < t.length →
      (scalarMul c t).getD j 0 = c * t.getD j 0
  | t :: ts, 0, _ => rfl
  | t :: ts, j + 1, h => by
    have := getD_scalarMul c ts j (by simpa using h)
    simpa [scalarMul] using this

theorem getD_tensorAdd :
    ∀ (a b : List Int) (j : Nat), j < a.length → j < b.length →
      (tensorAdd a b).getD j 0 = a.getD j 0 + b.getD j 0
  | x :: xs, y :: ys, 0, _, _ => rfl
  | x :: xs, y :: ys, j + 1, ha, hb => by
    have := getD_tensorAdd xs ys j (by simpa using ha) (by simpa using hb)
    simpa [tensorAdd] using this

/-- The loop with the `coeff != 1` skip computes the same result as the
loop that always multiplies. -/
theorem loop_eq_noskip :
    ∀ (pairs : List (Int × List Int)) (out : Option (List Int)),
      elemwiseSum_loop pairs out = elemwiseSum_loop_noskip pairs out := by
  intro pairs
  induction pairs with
  | nil => intro _; rfl
  | cons p rest ih =>
    intro out
    obtain ⟨c, t⟩ := p
    by_cases hc : c = 1
    · subst hc
      cases out <;>
        simp [elemwiseSum_loop, elemwiseSum_loop_noskip, scalarMul_one, ih]
    · cases out <;>
        simp [elemwiseSum_loop, elemwiseSum_loop_noskip, hc, ih]

/-- Invariant of the multiply-always loop: starting from an accumulator
`acc`, the result exists, keeps the length of `acc`, and each entry is
`acc`'s entry plus the weighted sum of the remaining inputs' entries. -/
theorem loop_noskip_spec :
    ∀ (pairs : List (Int × List Int)) (acc : List Int),
      (∀ p ∈ pairs, (Prod.snd p).length = acc.length) →
      ∃ out, elemwiseSum_loop_noskip pairs (some acc) = some out ∧
        out.length = acc.length ∧
        ∀ j, j < acc.length →
          out.getD j 0 =
            acc.getD j 0 + (pairs.map (fun p => p.1 * (Prod.snd p).getD j 0)).sum := by
  intro pairs
  induction pairs with
  | nil =>
    intro acc _
    exact ⟨acc, rfl, rfl, fun j _ => by simp⟩
  | cons p rest ih =>
    intro acc h
    obtain ⟨c, t⟩ := p
    have ht : t.length = acc.length := h (c, t) (List.mem_cons_self _ _)
    have hlen : (tensorAdd acc (scalarMul c t)).length = acc.length := by
      rw [length_tensorAdd, length_scalarMul, ht, Nat.min_self]
    obtain ⟨out, hout, holen, hoget⟩ :=
      ih (tensorAdd acc (scalarMul c t))
        (fun q hq => by rw [hlen]; exact h q (List.mem_cons_of_mem _ hq))
    refine ⟨out, ?_, by rw [holen, hlen], ?_⟩
    · simpa [elemwiseSum_loop_noskip] using hout
    · intro j hj
      have hadd : (tensorAdd acc (scalarMul c t)).getD j 0 =
          acc.getD j 0 + c * t.getD j 0 := by
        rw [getD_tensorAdd acc (scalarMul c t) j hj
              (by rw [length_scalarMul, ht]; exact hj),
            getD_scalarMul c t j (by rw [ht]; exact hj)]
      rw [hoget j (by rw [hlen]; exact hj), hadd, List.map_cons, List.sum_cons]
      ring

/-- The weighted elementwise sum computed by
`ElemwiseSumLayer.get_output_for` on a non-empty list of same-length
inputs, entrywise. -/
theorem elemwiseSum_output_spec (coeffs : List Int) (inputs : List (List Int))
    (m : Nat) (hne : inputs ≠ []) (hlen : coeffs.length = inputs.length)
    (hm : ∀ t ∈ inputs, t.length = m) :
    ∃ out, elemwiseSum_get_output_for coeffs inputs = some out ∧
      out.length = m ∧
      ∀ j, j < m →
        out.getD j 0 =
          ((coeffs.zip inputs).map (fun p => p.1 * (Prod.snd p).getD j 0)).sum := by
  cases inputs with
  | nil => exact absurd rfl hne
  | cons t0 irest =>
    cases coeffs with
    | nil => simp at hlen
    | cons c0 crest =>
      have ht0 : t0.length = m := hm t0 (List.mem_cons_self _ _)
      have hacc : (scalarMul c0 t0).length = m := by rw [length_scalarMul, ht0]
      obtain ⟨out, hout, holen, hoget⟩ :=
        loop_noskip_spec (crest.zip irest) (scalarMul c0 t0)
          (fun p hp => by
            rw [hacc]
            exact hm p.2 (List.mem_cons_of_mem _ (List.of_mem_zip hp).2))
      refine ⟨out, ?_, by rw [holen, hacc], ?_⟩
      · rw [elemwiseSum_get_output_for, loop_eq_noskip]
        simpa [elemwiseSum_loop_noskip] using hout
      · intro j hj
        rw [hoget j (by rw [hacc]; exact hj),
            getD_scalarMul c0 t0 j (by rw [ht0]; exact hj)]
        simp [List.sum_cons]

/-! ### Claim theorems -/

/-- C1: for every non-empty list of input shapes that agree on all
dimensions except the layer's axis (with the axis in range),
`ConcatLayer.get_output_shape_for` returns a shape equal to the first
input shape except that the size along the axis is the sum of all
inputs' sizes along that axis; all other dimensions equal the first
input's. -/
theorem concatLayer_output_shape_correct (axis : Nat) (first : List Nat)
    (rest : List (List Nat))
    (hax : ∀ s ∈ first :: rest, axis < s.length)
    (_hagree : ∀ s ∈ rest, s.length = first.length ∧
      ∀ j, j ≠ axis → s.get? j = first.get? j) :
    ∃ out, concat_get_output_shape_for axis (first :: rest) = some out ∧
      out.length = first.length ∧
      out.get? axis = some (((first :: rest).map (fun s => s.getD axis 0)).sum) ∧
      ∀ j, j ≠ axis → out.get? j = first.get? j := by
  have hfirst : axis < first.length := hax first (List.mem_cons_self _ _)
  refine ⟨_, concat_shape_eq axis first rest hax, ?_, ?_, ?_⟩
  · exact List.length_set first axis _
  · exact List.get?_set_eq_of_lt _ hfirst
  · intro j hj
    exact List.get?_set_ne _ first (Ne.symm hj)

/-- Witness for C1 at axis 1, shapes `(2,3)` and `(2,4)`: the output
shape is `(2,7)`. -/
theorem concatLayer_output_shape_correct_witness :
    ∃ out, concat_get_output_shape_for 1 [[2, 3], [2, 4]] = some out ∧
      out.length = 2 ∧
      out.get? 1 = some 7 ∧
      ∀ j, j ≠ 1 → out.get? j = [2, 3].get? j := by
  obtain ⟨out, h1, h2, h3, h4⟩ :=
    concatLayer_output_shape_correct 1 [2, 3] [[2, 4]] (by decide)
      (by
        intro s hs
        have hs' : s = [2, 4] := by simpa using hs
        subst hs'
        refine ⟨rfl, ?_⟩
        intro j hj
        match j with
        | 0 => rfl
        | 1 => exact absurd rfl hj
        | n + 2 => rfl)
  exact ⟨out, h1, h2, h3, h4⟩

/-- C3: on a non-empty list of input shapes,
`ElemwiseSumLayer.get_output_shape_for` returns the first (common) shape
iff all input shapes are equal, and raises the shape-mismatch
`ValueError` otherwise. The method reads no coefficient state at all
(`self.coeffs` does not occur in it), so the embedding takes no
coefficient argument: independence from the coefficient configuration
holds by construction. -/
theorem elemwiseSum_output_shape_iff (first : List Nat) (rest : List (List Nat)) :
    (elemwiseSum_get_output_shape_for (first :: rest) = Except.ok first ↔
      ∀ s ∈ rest, s = first) ∧
    ((¬ ∀ s ∈ rest, s = first) →
      elemwiseSum_get_output_shape_for (first :: rest) = Except.error shapesMismatchMsg) := by
  have hcond : ((first :: rest).any (fun shape => shape ≠ first) = true) ↔
      ¬ ∀ s ∈ rest, s = first := by
    constructor
    · intro hany hall
      rcases List.any_eq_true.1 hany with ⟨s, hs, hp⟩
      rcases List.mem_cons.1 hs with h | hs'
      · subst h; simp at hp
      · have hne : s ≠ first := by simpa using hp
        exact hne (hall s hs')
    · intro hnall
      rcases not_forall.1 hnall with ⟨s, hs⟩
      rcases Classical.not_imp.1 hs with ⟨hmem, hne⟩
      exact List.any_eq_true.2 ⟨s, List.mem_cons_of_mem _ hmem, by simpa using hne⟩
  constructor
  · constructor
    · intro hok
      by_contra hnall
      simp only [elemwiseSum_get_output_shape_for] at hok
      rw [if_pos (hcond.2 hnall)] at hok
      exact absurd hok (by simp)
    · intro hall
      simp only [elemwiseSum_get_output_shape_for]
      rw [if_neg (fun hany => (hcond.1 hany) hall)]
  · intro hnall
    simp only [elemwiseSum_get_output_shape_for]
    rw [if_pos (hcond.2 hnall)]

/-- Witness for C3 on the mismatching shapes `(2,3)` and `(2,4)`:
not all shapes are equal and the shape-mismatch error is raised. -/
theorem elemwiseSum_output_shape_iff_witness :
    (¬ ∀ s ∈ [[2, 4]], s = [2, 3]) ∧
    elemwiseSum_get_output_shape_for [[2, 3], [2, 4]] =
      Except.error shapesMismatchMsg :=
  ⟨by decide, (elemwiseSum_output_shape_iff [2, 3] [[2, 4]]).2 (by decide)⟩

/-- C4: constructing `ElemwiseSumLayer` with `coeffs` given as a list
raises the size-mismatch `ValueError` iff the list's length differs from
the number of input layers; the check happens in `__init__`, i.e. the
construction function itself returns the error. -/
theorem elemwiseSum_construct_size_check (n : Nat) (cs : List Int) :
    (cs.length ≠ n →
      elemwiseSum_construct n (Coeffs.list cs) =
        Except.error (coeffsMismatchMsg cs.length n)) ∧
    (cs.length = n →
      elemwiseSum_construct n (Coeffs.list cs) = Except.ok cs) := by
  by_cases h : cs.length = n
  · exact ⟨fun hne => absurd h hne, fun _ => by simp [elemwiseSum_construct, h]⟩
  · exact ⟨fun _ => by simp [elemwiseSum_construct, h], fun heq => absurd heq h⟩

/-- Witness for C4: three coefficients for two input layers raise the
size-mismatch error. -/
theorem elemwiseSum_construct_size_check_witness :
    (([1, 2, 3] : List Int).length ≠ 2) ∧
    elemwiseSum_construct 2 (Coeffs.list [1, 2, 3]) =
      Except.error (coeffsMismatchMsg 3 2) :=
  ⟨by decide, (elemwiseSum_construct_size_check 2 [1, 2, 3]).1 (by decide)⟩

/-- C8: `ConcatLayer.get_output_shape_for` performs no validation of
non-axis dimension agreement: for every non-empty list of input shapes
with the axis in range for each, it returns a result — the first shape
with its axis entry replaced by the summed axis sizes — and raises no
error, even when the shapes disagree on non-axis dimensions (no
agreement hypothesis appears below). -/
theorem concatLayer_shape_no_validation (axis : Nat) (first : List Nat)
    (rest : List (List Nat))
    (hax : ∀ s ∈ first :: rest, axis < s.length) :
    ∃ out, concat_get_output_shape_for axis (first :: rest) = some out ∧
      out = first.set axis (((first :: rest).map (fun s => s.getD axis 0)).sum) :=
  ⟨_, concat_shape_eq axis first rest hax, rfl⟩

/-- Witness for C8 at axis 1 with shapes `(2,3)` and `(9,4)` that
disagree on the non-axis dimension 0: no error, result `(2,7)`. -/
theorem concatLayer_shape_no_validation_witness :
    ∃ out, concat_get_output_shape_for 1 [[2, 3], [9, 4]] = some out ∧
      out = [2, 7] := by
  obtain ⟨out, h1, h2⟩ :=
    concatLayer_shape_no_validation 1 [2, 3] [[9, 4]] (by decide)
  exact ⟨out, h1, h2⟩

/-- C9: under the precondition that the axis is valid for every upstream
output shape (and at least one upstream shape exists, as referenced by
"the first input shape"), `ConcatLayer.get_output_shape_for` never
fails: every index it performs is in range, it returns `some` result,
and the result has the same length as the first input shape. -/
theorem concatLayer_shape_total (axis : Nat) (first : List Nat)
    (rest : List (List Nat))
    (hax : ∀ s ∈ first :: rest, axis < s.length) :
    ∃ out, concat_get_output_shape_for axis (first :: rest) = some out ∧
      out.length = first.length :=
  ⟨_, concat_shape_eq axis first rest hax, List.length_set first axis _⟩

/-- Witness for C9 at axis 0, shapes `(2,3)` and `(5,3)`: a result of
length 2 is returned. -/
theorem concatLayer_shape_total_witness :
    ∃ out, concat_get_output_shape_for 0 [[2, 3], [5, 3]] = some out ∧
      out.length = 2 := by
  obtain ⟨out, h1, h2⟩ := concatLayer_shape_total 0 [2, 3] [[5, 3]] (by decide)
  exact ⟨out, h1, h2⟩

/-- C10: calling `ElemwiseSumLayer.get_output_for` with an empty inputs
list raises no error: `zip` is empty, the loop never executes, and the
Python `None` (here `none`) is returned rather than a tensor. -/
theorem elemwiseSum_empty_inputs (coeffs : List Int) :
    elemwiseSum_get_output_for coeffs [] = none := by
  simp [elemwiseSum_get_output_for, List.zip_nil_right, elemwiseSum_loop]

/-- C2: on a non-empty list of same-shaped inputs with matching
coefficients, `ElemwiseSumLayer.get_output_for` returns the elementwise
weighted sum `sum(coeff_i * input_i)` accumulated in input-list order;
for inputs `[1,2,3]`, `[4,5,6]` and coefficients `[2,1]` the result is
`[6,9,12]`; and the `coeff != 1` skip of the multiplication never
changes the result (the skipping loop equals the always-multiplying
loop on every input). -/
theorem elemwiseSum_output_correct (coeffs : List Int) (inputs : List (List Int))
    (m : Nat) (hne : inputs ≠ []) (hlen : coeffs.length = inputs.length)
    (hm : ∀ t ∈ inputs, t.length = m) :
    (∃ out, elemwiseSum_get_output_for coeffs inputs = some out ∧
      out.length = m ∧
      ∀ j, j < m →
        out.getD j 0 =
          ((coeffs.zip inputs).map (fun p => p.1 * (Prod.snd p).getD j 0)).sum) ∧
    elemwiseSum_get_output_for [2, 1] [[1, 2, 3], [4, 5, 6]] = some [6, 9, 12] ∧
    (∀ (pairs : List (Int × List Int)) (out : Option (List Int)),
      elemwiseSum_loop pairs out = elemwiseSum_loop_noskip pairs out) :=
  ⟨elemwiseSum_output_spec coeffs inputs m hne hlen hm, rfl, loop_eq_noskip⟩

/-- Witness for C2 at inputs `[1,2,3]`, `[4,5,6]` and coefficients
`[2,1]`. -/
theorem elemwiseSum_output_correct_witness :
    (([[1, 2, 3], [4, 5, 6]] : List (List Int)) ≠ []) ∧
    (∃ out, elemwiseSum_get_output_for [2, 1] [[1, 2, 3], [4, 5, 6]] = some out ∧
      out.length = 3 ∧
      ∀ j, j < 3 →
        out.getD j 0 =
          ((([2, 1] : List Int).zip [[1, 2, 3], [4, 5, 6]]).map
            (fun p => p.1 * (Prod.snd p).getD j 0)).sum) :=
  ⟨by decide,
    (elemwiseSum_output_correct [2, 1] [[1, 2, 3], [4, 5, 6]] 3 (by decide)
      (by decide) (by decide)).1⟩

/-- C5: a scalar coefficient `c` is resolved at construction to the
per-layer list `[c, ..., c]`, so the layer behaves identically to one
constructed with that list (the resolved `self.coeffs` are equal); and
with the scalar coefficient `1` (the default) on 3 inputs,
`get_output_for` is the unweighted elementwise sum of the inputs. -/
theorem elemwiseSum_scalar_broadcast (c : Int) (n : Nat)
    (inputs : List (List Int)) (m : Nat)
    (h3 : inputs.length = 3) (hm : ∀ t ∈ inputs, t.length = m) :
    elemwiseSum_construct n (Coeffs.scalar c) = Except.ok (List.replicate n c) ∧
    elemwiseSum_construct n (Coeffs.list (List.replicate n c)) =
      Except.ok (List.replicate n c) ∧
    (∃ out, elemwiseSum_get_output_for (List.replicate 3 1) inputs = some out ∧
      out.length = m ∧
      ∀ j, j < m → out.getD j 0 = (inputs.map (fun t => t.getD j 0)).sum) := by
  refine ⟨rfl, by simp [elemwiseSum_construct], ?_⟩
  rcases List.length_eq_three.1 h3 with ⟨t1, t2, t3, rfl⟩
  obtain ⟨out, hout, holen, hoget⟩ :=
    elemwiseSum_output_spec (List.replicate 3 1) [t1, t2, t3] m (by simp)
      (by simp) hm
  refine ⟨out, hout, holen, fun j hj => ?_⟩
  rw [hoget j hj]
  simp [List.sum_cons]

/-- Witness for C5 with scalar coefficient 2 broadcast to 4 layers and
the unweighted sum of 3 concrete inputs. -/
theorem elemwiseSum_scalar_broadcast_witness :
    (([[1, 2], [3, 4], [5, 6]] : List (List Int)).length = 3) ∧
    (elemwiseSum_construct 4 (Coeffs.scalar 2) = Except.ok (List.replicate 4 2) ∧
     elemwiseSum_construct 4 (Coeffs.list (List.replicate 4 2)) =
       Except.ok (List.replicate 4 2) ∧
     (∃ out, elemwiseSum_get_output_for (List.replicate 3 1)
         [[1, 2], [3, 4], [5, 6]] = some out ∧
       out.length = 2 ∧
       ∀ j, j < 2 →
         out.getD j 0 =
           (([[1, 2], [3, 4], [5, 6]] : List (List Int)).map
             (fun t => t.getD j 0)).sum)) :=
  ⟨by decide,
    elemwiseSum_scalar_broadcast 2 4 [[1, 2], [3, 4], [5, 6]] 2 (by decide)
      (by decide)⟩

/-- Mapping `Tensor.dim` and then taking the sub-tensors of each input
succeeds and recovers the slice lists. -/
theorem mapM_subTensors :
    ∀ tss : List (List Tensor), (tss.map Tensor.dim).mapM subTensors = some tss := by
  intro tss
  induction tss with
  | nil => rfl
  | cons ts rest ih =>
    rw [List.map_cons, List.mapM_cons, ih]
    rfl

/-- C6: `ConcatLayer.get_output_for` is exactly the concatenation of its
inputs along the layer's axis (it delegates to `utils.concatenate`); at
axis 0 the output of any non-empty input list is the concatenation of
the inputs' slices in input-list order; and for the inputs
`[[1,2],[3,4]]` and `[[5,6],[7,8]]` at axis 0 the output is
`[[1,2],[3,4],[5,6],[7,8]]`. -/
theorem concatLayer_output_concatenation :
    (∀ (axis : Nat) (inputs : List Tensor),
      concat_get_output_for axis inputs = utils_concatenate axis inputs) ∧
    (∀ tss : List (List Tensor), tss ≠ [] →
      concat_get_output_for 0 (tss.map Tensor.dim) = some (Tensor.dim tss.flatten)) ∧
    concat_get_output_for 0
      [Tensor.dim [Tensor.dim [Tensor.scalar 1, Tensor.scalar 2],
                   Tensor.dim [Tensor.scalar 3, Tensor.scalar 4]],
       Tensor.dim [Tensor.dim [Tensor.scalar 5, Tensor.scalar 6],
                   Tensor.dim [Tensor.scalar 7, Tensor.scalar 8]]] =
      some (Tensor.dim [Tensor.dim [Tensor.scalar 1, Tensor.scalar 2],
                        Tensor.dim [Tensor.scalar 3, Tensor.scalar 4],
                        Tensor.dim [Tensor.scalar 5, Tensor.scalar 6],
                        Tensor.dim [Tensor.scalar 7, Tensor.scalar 8]]) := by
  refine ⟨fun _ _ => rfl, ?_, rfl⟩
  intro tss _
  show ((tss.map Tensor.dim).mapM subTensors).map
      (fun rows => Tensor.dim rows.flatten) = some (Tensor.dim tss.flatten)
  rw [mapM_subTensors]
  rfl

/-- Witness for C6: two rank-1 inputs concatenated at axis 0. -/
theorem concatLayer_output_concatenation_witness :
    (([[Tensor.scalar 1], [Tensor.scalar 2]] : List (List Tensor)) ≠ []) ∧
    concat_get_output_for 0 [Tensor.dim [Tensor.scalar 1], Tensor.dim [Tensor.scalar 2]] =
      some (Tensor.dim [Tensor.scalar 1, Tensor.scalar 2]) := by
  refine ⟨by simp, ?_⟩
  have h := concatLayer_output_concatenation.2.1
    [[Tensor.scalar 1], [Tensor.scalar 2]] (by simp)
  exact h

/-! ### Store lemmas for the side-effect claim -/

theorem alloc_grows {α : Type} (s : Store α) (v : α) :
    s.cells <+: (s.alloc v).1.cells :=
  ⟨[v], rfl⟩

theorem alloc_read_new {α : Type} (s : Store α) (v : α) (d : α) :
    (s.alloc v).1.read (s.alloc v).2 d = v := by
  show (s.cells ++ [v]).getD s.cells.length d = v
  rw [List.getD_eq_get?, List.get?_append_right (Nat.le_refl _)]
  simp

theorem alloc_addr_lt {α : Type} (s : Store α) (v : α) :
    (s.alloc v).2 < (s.alloc v).1.cells.length := by
  simp [Store.alloc]

/-- Reads of addresses that already existed are unchanged by any
store extension: the heaps only ever grow by appending. -/
theorem read_stable {α : Type} {s s' : Store α} (h : s.cells <+: s'.cells)
    (a : Nat) (ha : a < s.cells.length) (d : α) : s'.read a d = s.read a d := by
  obtain ⟨t, ht⟩ := h
  show s'.cells.getD a d = s.cells.getD a d
  rw [← ht, List.getD_eq_get?, List.getD_eq_get?, List.get?_append ha]

theorem zip_map_snd {α β γ : Type} :
    ∀ (xs : List α) (ys : List β) (f : β → γ),
      xs.zip (ys.map f) = (xs.zip ys).map (fun p => (p.1, f p.2))
  | [], _, _ => rfl
  | _ :: _, [], _ => rfl
  | x :: xs, y :: ys, f => by
    simp [List.zip_cons_cons, zip_map_snd xs ys f]

/-- One iteration of the store-model loop: the store is only extended,
the returned address is valid, and the cell it holds is exactly the
value the pure loop body computes from the read input values. -/
theorem step_spec (s : Store (List Int)) (out : Option Nat) (c : Int) (a : Nat)
    (ha : a < s.cells.length) (hout : ∀ o, out = some o → o < s.cells.length) :
    s.cells <+: (elemwiseSum_step s out c a).1.cells ∧
    ∃ o2, (elemwiseSum_step s out c a).2 = some o2 ∧
      o2 < (elemwiseSum_step s out c a).1.cells.length ∧
      (elemwiseSum_step s out c a).1.read o2 [] =
        (match out with
         | some o => tensorAdd (s.read o [])
             (if c ≠ 1 then scalarMul c (s.read a []) else s.read a [])
         | none => if c ≠ 1 then scalarMul c (s.read a []) else s.read a []) := by
  cases out with
  | none =>
    by_cases hc : c = 1
    · refine ⟨?_, a, ?_, ?_, ?_⟩ <;>
        simp [elemwiseSum_step, hc, List.prefix_refl, ha]
    · refine ⟨?_, (s.alloc (scalarMul c (s.read a []))).2, ?_, ?_, ?_⟩ <;>
        simp [elemwiseSum_step, hc, alloc_grows, alloc_addr_lt, alloc_read_new]
  | some o =>
    have ho : o < s.cells.length := hout o rfl
    by_cases hc : c = 1
    · have hstep : elemwiseSum_step s (some o) c a =
          ((s.alloc (tensorAdd (s.read o []) (s.read a []))).1,
           some (s.alloc (tensorAdd (s.read o []) (s.read a []))).2) := by
        simp [elemwiseSum_step, hc]
      rw [hstep]
      refine ⟨alloc_grows _ _, _, rfl, alloc_addr_lt _ _, ?_⟩
      rw [alloc_read_new]
      simp [hc]
    · have hread1 : ((s.alloc (scalarMul c (s.read a []))).1).read o [] =
          s.read o [] :=
        read_stable (alloc_grows _ _) o ho []
      have hstep : elemwiseSum_step s (some o) c a =
          (((s.alloc (scalarMul c (s.read a []))).1.alloc
              (tensorAdd (s.read o []) (scalarMul c (s.read a [])))).1,
           some ((s.alloc (scalarMul c (s.read a []))).1.alloc
              (tensorAdd (s.read o []) (scalarMul c (s.read a [])))).2) := by
        simp only [elemwiseSum_step, if_pos hc]
        rw [hread1, alloc_read_new]
      rw [hstep]
      refine ⟨(alloc_grows _ _).trans (alloc_grows _ _), _, rfl,
        alloc_addr_lt _ _, ?_⟩
      rw [alloc_read_new]
      simp [hc]

/-- Invariant of the store-model loop: the store only grows, the result
address (when the accumulator exists) is valid, and reading the result
gives exactly what the pure loop computes from the tensors read at the
input addresses. -/
theorem run_spec :
    ∀ (pairs : List (Int × Nat)) (s : Store (List Int)) (out : Option Nat),
      (∀ p ∈ pairs, Prod.snd p < s.cells.length) →
      (∀ o, out = some o → o < s.cells.length) →
      s.cells <+: (elemwiseSum_run pairs s out).1.cells ∧
      (∀ o, (elemwiseSum_run pairs s out).2 = some o →
        o < (elemwiseSum_run pairs s out).1.cells.length) ∧
      ((elemwiseSum_run pairs s out).2).map
          (fun o => (elemwiseSum_run pairs s out).1.read o []) =
        elemwiseSum_loop (pairs.map (fun p => (p.1, s.read (Prod.snd p) [])))
          (out.map (fun o => s.read o [])) := by
  intro pairs
  induction pairs with
  | nil =>
    intro s out _ hout
    refine ⟨List.prefix_refl _, hout, ?_⟩
    cases out <;> rfl
  | cons p rest ih =>
    intro s out hp hout
    obtain ⟨c, a⟩ := p
    have ha : a < s.cells.length := hp (c, a) (List.mem_cons_self _ _)
    obtain ⟨hpre1, o2, ho2, ho2lt, ho2val⟩ := step_spec s out c a ha hout
    have hlen1 : s.cells.length ≤ (elemwiseSum_step s out c a).1.cells.length :=
      hpre1.length_le
    have hrun : elemwiseSum_run ((c, a) :: rest) s out =
        elemwiseSum_run rest (elemwiseSum_step s out c a).1 (some o2) := by
      show elemwiseSum_run rest (elemwiseSum_step s out c a).1
          (elemwiseSum_step s out c a).2 = _
      rw [ho2]
    have hp' : ∀ q ∈ rest, Prod.snd q < (elemwiseSum_step s out c a).1.cells.length :=
      fun q hq => Nat.lt_of_lt_of_le (hp q (List.mem_cons_of_mem _ hq)) hlen1
    have hout' : ∀ o, (some o2 : Option Nat) = some o →
        o < (elemwiseSum_step s out c a).1.cells.length := by
      intro o h
      cases h
      exact ho2lt
    obtain ⟨hpre2, hvalid2, hcorr⟩ := ih (elemwiseSum_step s out c a).1 (some o2) hp' hout'
    rw [hrun]
    refine ⟨hpre1.trans hpre2, hvalid2, ?_⟩
    rw [hcorr]
    have hmaps : rest.map (fun q => (q.1, (elemwiseSum_step s out c a).1.read
        (Prod.snd q) [])) = rest.map (fun q => (q.1, s.read (Prod.snd q) [])) := by
      apply List.map_congr_left
      intro q hq
      rw [read_stable hpre1 (Prod.snd q) (hp q (List.mem_cons_of_mem _ hq)) []]
    rw [hmaps]
    cases out with
    | none =>
      rw [show Option.map (fun o => (elemwiseSum_step s none c a).1.read o [])
            (some o2) = some ((elemwiseSum_step s none c a).1.read o2 []) from rfl,
          ho2val]
      rfl
    | some o =>
      rw [show Option.map (fun x => (elemwiseSum_step s (some o) c a).1.read x [])
            (some o2) = some ((elemwiseSum_step s (some o) c a).1.read o2 []) from rfl,
          ho2val]
      rfl

/-- C7: both `get_output_for` methods are pure. In the heap model (valid
input addresses), `ElemwiseSumLayer.get_output_for` (i) only extends the
store, (ii) leaves every pre-existing tensor cell unchanged, and
(iii) returns a value that is exactly the pure function
`elemwiseSum_get_output_for` of the input tensors' values — so two calls
on equal inputs yield equal results. The same three properties hold for
`ConcatLayer.get_output_for` with no validity hypothesis at all. -/
theorem mergeLayers_pure (coeffs : List Int) (addrs : List Nat)
    (s : Store (List Int)) (hvalid : ∀ a ∈ addrs, a < s.cells.length) :
    s.cells <+: (elemwiseSum_get_output_for_heap coeffs addrs s).1.cells ∧
    (∀ a, a < s.cells.length →
      (elemwiseSum_get_output_for_heap coeffs addrs s).1.read a [] = s.read a []) ∧
    ((elemwiseSum_get_output_for_heap coeffs addrs s).2).map
        (fun o => (elemwiseSum_get_output_for_heap coeffs addrs s).1.read o []) =
      elemwiseSum_get_output_for coeffs (addrs.map (fun a => s.read a [])) ∧
    (∀ (axis : Nat) (addrs2 : List Nat) (s2 : Store Tensor),
      s2.cells <+: (concat_get_output_for_heap axis addrs2 s2).1.cells ∧
      (∀ a, a < s2.cells.length →
        (concat_get_output_for_heap axis addrs2 s2).1.read a (Tensor.dim []) =
          s2.read a (Tensor.dim [])) ∧
      ((concat_get_output_for_heap axis addrs2 s2).2).map
          (fun o => (concat_get_output_for_heap axis addrs2 s2).1.read o (Tensor.dim [])) =
        concat_get_output_for axis (addrs2.map (fun a => s2.read a (Tensor.dim [])))) := by
  have hp : ∀ p ∈ coeffs.zip addrs, Prod.snd p < s.cells.length := fun p hp =>
    hvalid p.2 (List.of_mem_zip hp).2
  have hout : ∀ o, (none : Option Nat) = some o → o < s.cells.length := by
    intro o h
    cases h
  obtain ⟨hpre, hval, hcorr⟩ := run_spec (coeffs.zip addrs) s none hp hout
  refine ⟨hpre, fun a haa => read_stable hpre a haa [], ?_, ?_⟩
  · rw [elemwiseSum_get_output_for_heap]
    rw [hcorr, elemwiseSum_get_output_for, zip_map_snd]
    rfl
  · intro axis addrs2 s2
    cases hmatch : concat_get_output_for axis
        (addrs2.map (fun a => s2.read a (Tensor.dim []))) with
    | none =>
      have hheap : concat_get_output_for_heap axis addrs2 s2 = (s2, none) := by
        rw [concat_get_output_for_heap, hmatch]
      rw [hheap]
      exact ⟨List.prefix_refl _, fun _ _ => rfl, rfl⟩
    | some t =>
      have hheap : concat_get_output_for_heap axis addrs2 s2 =
          ((s2.alloc t).1, some (s2.alloc t).2) := by
        rw [concat_get_output_for_heap, hmatch]
      rw [hheap]
      refine ⟨alloc_grows _ _, ?_, ?_⟩
      · intro a haa
        exact read_stable (alloc_grows _ _) a haa (Tensor.dim [])
      · rw [show Option.map (fun o => (s2.alloc t).1.read o (Tensor.dim []))
              (some (s2.alloc t).2) =
            some ((s2.alloc t).1.read (s2.alloc t).2 (Tensor.dim [])) from rfl,
          alloc_read_new]

/-- Witness for C7: one input tensor `[5]` at address 0 with coefficient
2; the pre-existing cell is untouched and the returned value is the pure
weighted sum of the read inputs. -/
theorem mergeLayers_pure_witness :
    ((Store.mk [[5]] : Store (List Int)).cells <+:
      (elemwiseSum_get_output_for_heap [2] [0] (Store.mk [[5]])).1.cells) ∧
    ((elemwiseSum_get_output_for_heap [2] [0] (Store.mk [[5]])).2).map
        (fun o => (elemwiseSum_get_output_for_heap [2] [0] (Store.mk [[5]])).1.read o []) =
      elemwiseSum_get_output_for [2]
        (([0] : List Nat).map (fun a => (Store.mk [[5]] : Store (List Int)).read a [])) :=
  ⟨(mergeLayers_pure [2] [0] (Store.mk [[5]]) (by decide)).1,
   (mergeLayers_pure [2] [0] (Store.mk [[5]]) (by decide)).2.2.1⟩

end Lasagne
